import Mathlib

/-!
Formal model of the readur LLM knowledge-graph service
(`src/services/llm/llm_service.rs`).

The service extracts a knowledge graph from document text (via an external
LLM call or a deterministic mock) and persists it transactionally, replacing
any prior graph for the same document.

Modelling conventions:
* Rust strings are `List Char` (`Str`), following their char-wise use here.
* `serde_json::Value` property payloads are pass-through data for this
  service; they are modelled opaquely by their serialized text (`JsonVal`).
* Generated `Uuid`s are modelled as `Nat`s drawn from a fresh-id counter in
  the database state.
* External I/O (the document fetch, the HTTP exchange with the LLM, the
  serde decode of the response, and database statement failures) is modelled
  by oracle parameters; the control flow around the oracles is translated
  from the source.
* A sqlx transaction that errors before `commit` is dropped and rolled back:
  the state visible after the call is the state from before the call.
-/

/-! ### Strings -/

abbrev Str := List Char

/-- Unicode white-space test matching Rust's `char::is_whitespace`
(the `White_Space` property). -/
def isWs (c : Char) : Bool :=
  c.toNat = 9 || c.toNat = 10 || c.toNat = 11 || c.toNat = 12 || c.toNat = 13 ||
  c.toNat = 32 || c.toNat = 133 || c.toNat = 160 || c.toNat = 5760 ||
  (8192 ≤ c.toNat && c.toNat ≤ 8202) || c.toNat = 8232 || c.toNat = 8233 ||
  c.toNat = 8239 || c.toNat = 8287 || c.toNat = 12288

/-- Rust `str::trim_start`. -/
def trimStartChars (s : Str) : Str := s.dropWhile isWs

/-- Rust `str::trim_end`. -/
def trimEndChars (s : Str) : Str := (s.reverse.dropWhile isWs).reverse

/-- Rust `str::trim`. -/
def trimChars (s : Str) : Str := trimEndChars (trimStartChars s)

/-- Boolean string-prefix test (Rust's pattern match at the front). -/
def isPrefixOfCh : Str → Str → Bool
  | [], _ => true
  | _ :: _, [] => false
  | a :: as, b :: bs => a = b && isPrefixOfCh as bs

/-- Repeatedly strip `pat` from the front of `s` while it is a prefix,
with explicit fuel (each step consumes at least one character, so
`s.length` fuel is always enough; see `stripStartRep_fuel`). -/
def stripStartRep (pat : Str) : Nat → Str → Str
  | 0, s => s
  | fuel + 1, s =>
    if pat ≠ [] ∧ isPrefixOfCh pat s = true then
      stripStartRep pat fuel (s.drop pat.length)
    else s

/-- Rust `str::trim_start_matches`: repeatedly remove `pat` from the front. -/
def trimStartMatches (pat s : Str) : Str := stripStartRep pat s.length s

/-- Rust `str::trim_end_matches`: repeatedly remove `pat` from the end,
realized by stripping the reversed pattern from the front of the reversed
string. -/
def trimEndMatches (pat s : Str) : Str :=
  (trimStartMatches pat.reverse s.reverse).reverse

/-- Opening code fence with a `json` language tag. -/
def fenceJson : Str := "```json".data

/-- Bare code fence. -/
def fenceBare : Str := "```".data

/-- Response sanitization from `call_llm_api`: `content_str.trim()
.trim_start_matches("```json").trim_start_matches("```")
.trim_end_matches("```").trim()`. -/
def sanitizeResponse (s : Str) : Str :=
  trimChars (trimEndMatches fenceBare
    (trimStartMatches fenceBare (trimStartMatches fenceJson (trimChars s))))

/-! ### Graph data model (`GraphNode`, `GraphEdge`, `GraphData`) -/

/-- Property payload: `serde_json::Value`, opaque to this service (only ever
bound through to SQL), modelled by its serialized text. -/
structure JsonVal where
  raw : Str
deriving DecidableEq, Repr

/-- An extracted entity: `pub struct GraphNode`. -/
structure GraphNode where
  label : Str
  name : Str
  properties : JsonVal
deriving DecidableEq, Repr

/-- An extracted relationship, endpoints referenced by node name:
`pub struct GraphEdge`. -/
structure GraphEdge where
  source : Str
  target : Str
  relationship : Str
  properties : JsonVal
deriving DecidableEq, Repr

/-- The extracted knowledge graph: `pub struct GraphData`. -/
structure GraphData where
  nodes : List GraphNode
  edges : List GraphEdge
deriving DecidableEq, Repr

/-! ### Database model -/

/-- A row of the `document_nodes` table: generated `id` plus the bound
insert parameters. -/
structure NodeRow where
  id : Nat
  document_id : Nat
  label : Str
  name : Str
  properties : JsonVal
deriving DecidableEq, Repr

/-- A row of the `document_edges` table. -/
structure EdgeRow where
  document_id : Nat
  source_node_id : Nat
  target_node_id : Nat
  relationship : Str
  properties : JsonVal
deriving DecidableEq, Repr

/-- Database state: both tables in insertion order plus the generator for
fresh node ids. -/
structure Db where
  nodes : List NodeRow
  edges : List EdgeRow
  nextId : Nat
deriving DecidableEq, Repr

/-- The statements of `store_graph_data` whose underlying I/O can fail
(`begin`, the `DELETE`, each node `INSERT ... RETURNING id`, each edge
`INSERT`, `commit`). -/
inductive StoreStep where
  | txBegin
  | txDelete
  | insNode (i : Nat)
  | insEdge (i : Nat)
  | txCommit
deriving DecidableEq, Repr

/-- Failure oracle for database I/O: `some msg` means the statement fails
with that error text (the `e.to_string()` of the sqlx error). -/
abbrev FailOracle := StoreStep → Option Str

/-- The oracle of a normally operating database: no statement fails. -/
def noFailures : FailOracle := fun _ => none

/-- Effect of `DELETE FROM document_nodes WHERE document_id = $1` on the
node table. -/
def removeNodesFor (d : Nat) : List NodeRow → List NodeRow
  | [] => []
  | r :: rest =>
    if r.document_id = d then removeNodesFor d rest
    else r :: removeNodesFor d rest

/-- Modelled from the spec: the source issues only the node-table `DELETE`;
the edge rows of the document go with it "via cascading or explicit delete"
(§4.3 step 1), the cascade living in the schema migrations, which are not
under `src/`. -/
def removeEdgesFor (d : Nat) : List EdgeRow → List EdgeRow
  | [] => []
  | r :: rest =>
    if r.document_id = d then removeEdgesFor d rest
    else r :: removeEdgesFor d rest

/-- The delete step of `store_graph_data`: clear existing graph data for
the document. -/
def deleteDoc (d : Nat) (db : Db) : Db :=
  { nodes := removeNodesFor d db.nodes
    edges := removeEdgesFor d db.edges
    nextId := db.nextId }

/-- The transient `node_map : HashMap<String, Uuid>`, as an association
list where the most recent insert shadows earlier ones (exactly
`HashMap::insert`'s overwrite). -/
abbrev NodeMap := List (Str × Nat)

/-- `node_map.insert(name, id)`: the new binding shadows any earlier one. -/
def mapInsert (m : NodeMap) (k : Str) (v : Nat) : NodeMap := (k, v) :: m

/-- `node_map.get(name)`: first (most recent) binding wins. -/
def mapLookup : NodeMap → Str → Option Nat
  | [], _ => none
  | (k, v) :: rest, key => if k = key then some v else mapLookup rest key

/-- The node-insertion loop of `store_graph_data`: for each node, run
`INSERT INTO document_nodes ... RETURNING id` (generated id = current
`nextId`), then `node_map.insert(node.name.clone(), id)`. `i` indexes the
node for the failure oracle. -/
def insertNodes (fail : FailOracle) (d : Nat) :
    List GraphNode → Nat → Db → NodeMap → Except Str (Db × NodeMap)
  | [], _, db, m => .ok (db, m)
  | n :: rest, i, db, m =>
    match fail (.insNode i) with
    | some e => .error e
    | none =>
      let id := db.nextId
      let db' : Db :=
        { nodes := db.nodes ++ [⟨id, d, n.label, n.name, n.properties⟩]
          edges := db.edges
          nextId := db.nextId + 1 }
      insertNodes fail d rest (i + 1) db' (mapInsert m n.name id)

/-- The edge-insertion loop of `store_graph_data`: resolve `source` and
`target` through `node_map` (failing with the source's
`"Source node {} not found"` / `"Target node {} not found"` message), then
run `INSERT INTO document_edges ...`. -/
def insertEdges (fail : FailOracle) (d : Nat) :
    List GraphEdge → Nat → NodeMap → Db → Except Str Db
  | [], _, _, db => .ok db
  | e :: rest, i, m, db =>
    match mapLookup m e.source with
    | none => .error ("Source node ".data ++ e.source ++ " not found".data)
    | some source_id =>
      match mapLookup m e.target with
      | none => .error ("Target node ".data ++ e.target ++ " not found".data)
      | some target_id =>
        match fail (.insEdge i) with
        | some err => .error err
        | none =>
          insertEdges fail d rest (i + 1) m
            { nodes := db.nodes
              edges := db.edges ++
                [⟨d, source_id, target_id, e.relationship, e.properties⟩]
              nextId := db.nextId }

/-- `store_graph_data(document_id, data)`: begin a transaction, delete the
document's prior graph rows, insert all nodes (building the name → id map),
resolve and insert all edges, commit. The returned `Db` is the committed
state; any `.error` aborts before commit. -/
def store_graph_data (fail : FailOracle) (d : Nat) (data : GraphData)
    (db : Db) : Except Str Db :=
  match fail .txBegin with
  | some e => .error e
  | none =>
    match fail .txDelete with
    | some e => .error e
    | none =>
      match insertNodes fail d data.nodes 0 (deleteDoc d db) [] with
      | .error e => .error e
      | .ok (db2, m) =>
        match insertEdges fail d data.edges 0 m db2 with
        | .error e => .error e
        | .ok db3 =>
          match fail .txCommit with
          | some e => .error e
          | none => .ok db3

/-- The table state visible after a `store_graph_data` call: the committed
state on success; on any error the transaction is dropped without commit,
so sqlx rolls it back and the prior state stays visible. -/
def visibleAfterStore (fail : FailOracle) (d : Nat) (data : GraphData)
    (db : Db) : Db :=
  match store_graph_data fail d data db with
  | .error _ => db
  | .ok db2 => db2

/-! ### Extraction (`call_llm_api`, `mock_llm_response`, the key toggle) -/

/-- The fixed instruction text of the prompt in `call_llm_api`, up to the
document excerpt. -/
def promptInstr : Str :=
  ("Extract entities (nodes) and relationships (edges) from the following " ++
   "text to build a knowledge graph. Return ONLY a JSON object with two " ++
   "keys: 'nodes' (list of objects with 'label', 'name', 'properties') " ++
   "and 'edges' (list of objects with 'source' (name), 'target' (name), " ++
   "'relationship', 'properties'). Text: ").data

/-- Prompt construction in `call_llm_api`: the instruction followed by
`content.chars().take(4000).collect::<String>()`. -/
def buildPrompt (content : Str) : Str := promptInstr ++ content.take 4000

/-- Document record fetched by `analyze_document`. Modelled from the spec:
`crate::models::document::Document` is not under `src/`; per §6 the
document source yields optional OCR text and optional raw content. -/
structure Document where
  ocr_text : Option Str
  content : Option Str
deriving DecidableEq, Repr

/-- Environment of one `analyze_document` invocation: the external
collaborators, as oracles. -/
structure AnalyzeEnv where
  /-- Outcome of `fetch_optional` on the documents table: a database error,
  no matching row, or the fetched document. -/
  fetchResult : Except Str (Option Document)
  /-- `LLM_API_KEY`: its presence selects the real extraction path. -/
  apiKey : Option Str
  /-- The HTTP exchange of `call_llm_api` as a function of the prompt:
  either an error (transport failure, non-success status, body decode
  failure, missing `choices[0].message.content`), or the model's raw
  content string. -/
  llmRespond : Str → Except Str Str
  /-- `serde_json::from_str::<GraphData>` on the sanitized payload: the
  external serde decoder. -/
  parseGraph : Str → Except Str GraphData
  /-- Failure oracle for the storage statements. -/
  storeFail : FailOracle

/-- `call_llm_api(content)`: build the prompt, run the exchange, sanitize
the returned payload, decode it as `GraphData`. -/
def call_llm_api (env : AnalyzeEnv) (content : Str) : Except Str GraphData :=
  match env.llmRespond (buildPrompt content) with
  | .error e => .error e
  | .ok content_str => env.parseGraph (sanitizeResponse content_str)

/-- `mock_llm_response(_content)`: the fixed synthetic graph returned when
no API key is configured; the input text is ignored. -/
def mock_llm_response (_content : Str) : GraphData :=
  { nodes :=
      [ { label := "Person".data
          name := "John Doe".data
          properties := ⟨"\x7b\"role\":\"Engineer\"\x7d".data⟩ }
      , { label := "Company".data
          name := "Readur Corp".data
          properties := ⟨"\x7b\"industry\":\"Tech\"\x7d".data⟩ } ]
    edges :=
      [ { source := "John Doe".data
          target := "Readur Corp".data
          relationship := "WORKS_FOR".data
          properties := ⟨"\x7b\x7d".data⟩ } ] }

/-- Step 2 of `analyze_document`: `if self.api_key.is_some() { call_llm_api }
else { mock_llm_response }`. -/
def extract (env : AnalyzeEnv) (content : Str) : Except Str GraphData :=
  match env.apiKey with
  | some _ => call_llm_api env content
  | none => .ok (mock_llm_response content)

/-! ### The `analyze_document` façade -/

/-- Text selection in `analyze_document`: `doc.ocr_text.or(doc.content)`. -/
def analyzableText (doc : Document) : Option Str :=
  match doc.ocr_text with
  | some t => some t
  | none => doc.content

/-- Steps 2–3 of `analyze_document` once the text is in hand: extract, then
store; the pair is (returned result, visible database state). -/
def runPipeline (env : AnalyzeEnv) (document_id : Nat) (db : Db)
    (content : Str) : Except Str GraphData × Db :=
  match extract env content with
  | .error e => (.error e, db)
  | .ok graph_data =>
    match store_graph_data env.storeFail document_id graph_data db with
    | .error e => (.error e, db)
    | .ok db2 => (.ok graph_data, db2)

/-- `analyze_document(document_id)`: fetch the document (`"Document not
found"` when no row matches), pick its analyzable text (`"No content to
analyze"` when both sources are absent), then extract and store. -/
def analyze_document (env : AnalyzeEnv) (document_id : Nat) (db : Db) :
    Except Str GraphData × Db :=
  match env.fetchResult with
  | .error e => (.error e, db)
  | .ok none => (.error "Document not found".data, db)
  | .ok (some doc) =>
    match analyzableText doc with
    | none => (.error "No content to analyze".data, db)
    | some content => runPipeline env document_id db content

deriving instance DecidableEq for Except

/-! ### Derived forms used to state properties of the store -/

/-- The node rows a `store_graph_data` call appends for document `d` when
the generator starts at `startId`: one row per input node, in order, each
with its own fresh id. -/
def nodeRowsFor (d : Nat) (startId : Nat) : List GraphNode → List NodeRow
  | [] => []
  | n :: rest =>
    ⟨startId, d, n.label, n.name, n.properties⟩ ::
      nodeRowsFor d (startId + 1) rest

/-- The name → id map `insertNodes` has built after processing `ns` with
the generator starting at `startId`. -/
def mapOfNodes (startId : Nat) : List GraphNode → NodeMap → NodeMap
  | [], m => m
  | n :: rest, m => mapOfNodes (startId + 1) rest (mapInsert m n.name startId)

/-- Position of the last node in the list carrying name `k`, if any. -/
def lastIdxOf (k : Str) : List GraphNode → Option Nat
  | [] => none
  | n :: rest =>
    match lastIdxOf k rest with
    | some j => some (j + 1)
    | none => if n.name = k then some 0 else none

/-- The edge rows implied by resolving every edge of the list through map
`m`; `none` as soon as an endpoint name is unbound. -/
def resolveEdgeRows (d : Nat) (m : NodeMap) : List GraphEdge → Option (List EdgeRow)
  | [] => some []
  | e :: rest =>
    match mapLookup m e.source with
    | none => none
    | some source_id =>
      match mapLookup m e.target with
      | none => none
      | some target_id =>
        match resolveEdgeRows d m rest with
        | none => none
        | some rows =>
          some (⟨d, source_id, target_id, e.relationship, e.properties⟩ :: rows)

/-- The node rows of one document, in table order. -/
def selectNodesFor (d : Nat) : List NodeRow → List NodeRow
  | [] => []
  | r :: rest =>
    if r.document_id = d then r :: selectNodesFor d rest
    else selectNodesFor d rest

/-- The edge rows of one document, in table order. -/
def selectEdgesFor (d : Nat) : List EdgeRow → List EdgeRow
  | [] => []
  | r :: rest =>
    if r.document_id = d then r :: selectEdgesFor d rest
    else selectEdgesFor d rest

/-! ### Concrete data for instantiating the theorems -/

/-- An empty database. -/
def db0 : Db := ⟨[], [], 0⟩

/-- A graph with two nodes sharing the name `A` and an edge resolving
through that name. -/
def gDup : GraphData :=
  { nodes :=
      [ ⟨"Person".data, "A".data, ⟨"\x7b\x7d".data⟩⟩
      , ⟨"Person".data, "A".data, ⟨"\x7b\"x\":1\x7d".data⟩⟩
      , ⟨"Company".data, "B".data, ⟨"\x7b\x7d".data⟩⟩ ]
    edges := [ ⟨"A".data, "B".data, "WORKS_FOR".data, ⟨"\x7b\x7d".data⟩⟩ ] }

/-- A graph whose single edge names a source node `X` that is not among
its nodes. -/
def gDangling : GraphData :=
  { nodes := [ ⟨"Person".data, "A".data, ⟨"\x7b\x7d".data⟩⟩ ]
    edges := [ ⟨"X".data, "A".data, "R".data, ⟨"\x7b\x7d".data⟩⟩ ] }

/-- A well-formed JSON graph payload. -/
def jEx : Str := "\x7b\"nodes\":[],\"edges\":[]\x7d".data

/-- Environment with no API key and a document whose OCR text is present. -/
def envMock : AnalyzeEnv :=
  { fetchResult := .ok (some ⟨some "Jane works at Acme.".data, none⟩)
    apiKey := none
    llmRespond := fun _ => .error []
    parseGraph := fun _ => .error []
    storeFail := noFailures }

/-- Environment in which no document matches the id. -/
def envNoDoc : AnalyzeEnv :=
  { fetchResult := .ok none
    apiKey := none
    llmRespond := fun _ => .error []
    parseGraph := fun _ => .error []
    storeFail := noFailures }

/-- Environment whose document has neither OCR text nor raw content. -/
def envNoContent : AnalyzeEnv :=
  { fetchResult := .ok (some ⟨none, none⟩)
    apiKey := none
    llmRespond := fun _ => .error []
    parseGraph := fun _ => .error []
    storeFail := noFailures }

/-- Environment whose document carries raw content but no OCR text. -/
def envRawOnly : AnalyzeEnv :=
  { fetchResult := .ok (some ⟨none, some "raw body".data⟩)
    apiKey := none
    llmRespond := fun _ => .error []
    parseGraph := fun _ => .error []
    storeFail := noFailures }

/-- The database state after storing the mock graph for document 3 in an
empty database. -/
def dbMockStored : Db :=
  { nodes :=
      [ ⟨0, 3, "Person".data, "John Doe".data, ⟨"\x7b\"role\":\"Engineer\"\x7d".data⟩⟩
      , ⟨1, 3, "Company".data, "Readur Corp".data, ⟨"\x7b\"industry\":\"Tech\"\x7d".data⟩⟩ ]
    edges := [ ⟨3, 0, 1, "WORKS_FOR".data, ⟨"\x7b\x7d".data⟩⟩ ]
    nextId := 2 }

/-- The database state after storing `gDup` for document 7 in an empty
database: one row per input node (ids 0, 1, 2), the edge resolved through
the last insert for name `A` (id 1). -/
def dbDupStored : Db :=
  { nodes :=
      [ ⟨0, 7, "Person".data, "A".data, ⟨"\x7b\x7d".data⟩⟩
      , ⟨1, 7, "Person".data, "A".data, ⟨"\x7b\"x\":1\x7d".data⟩⟩
      , ⟨2, 7, "Company".data, "B".data, ⟨"\x7b\x7d".data⟩⟩ ]
    edges := [ ⟨7, 1, 2, "WORKS_FOR".data, ⟨"\x7b\x7d".data⟩⟩ ]
    nextId := 3 }

/-! ### Lemmas on the string helpers -/

theorem isPrefixOfCh_length {pat s : Str} (h : isPrefixOfCh pat s = true) :
    pat.length ≤ s.length := by
  induction pat generalizing s with
  | nil => simp
  | cons a as ih =>
    cases s with
    | nil => simp [isPrefixOfCh] at h
    | cons b bs =>
      simp only [isPrefixOfCh, Bool.and_eq_true] at h
      have := ih h.2
      simp only [List.length_cons]
      omega

theorem isPrefixOfCh_append (pat rest : Str) :
    isPrefixOfCh pat (pat ++ rest) = true := by
  induction pat with
  | nil => simp [isPrefixOfCh]
  | cons a as ih => simp [isPrefixOfCh, ih]

theorem isPrefixOfCh_ne_head {p c : Char} {ps cs : Str} (hne : p ≠ c) :
    isPrefixOfCh (p :: ps) (c :: cs) = false := by
  simp [isPrefixOfCh, hne]

theorem stripStartRep_fuel {pat : Str} :
    ∀ fuel fuel' (s : Str), s.length ≤ fuel → s.length ≤ fuel' →
      stripStartRep pat fuel s = stripStartRep pat fuel' s := by
  intro fuel
  induction fuel with
  | zero =>
    intro fuel' s hs _
    have hnil : s = [] := by
      cases s with
      | nil => rfl
      | cons a t => simp at hs
    subst hnil
    cases fuel' <;> simp [stripStartRep, isPrefixOfCh]
    intro h1 h2
    exact absurd (isPrefixOfCh_length h2) (by
      cases pat with
      | nil => exact absurd rfl h1
      | cons c cs => simp)
  | succ n ih =>
    intro fuel' s hs hs'
    cases fuel' with
    | zero =>
      have hnil : s = [] := by
        cases s with
        | nil => rfl
        | cons a t => simp at hs'
      subst hnil
      simp [stripStartRep]
      intro h1 h2
      exact absurd (isPrefixOfCh_length h2) (by
        cases pat with
        | nil => exact absurd rfl h1
        | cons c cs => simp)
    | succ m =>
      simp only [stripStartRep]
      split
      · rename_i h
        have hp : 1 ≤ pat.length := by
          cases pat with
          | nil => exact absurd rfl h.1
          | cons c cs => simp
        exact ih m _ (by simp only [List.length_drop]; omega)
          (by simp only [List.length_drop]; omega)
      · rfl

theorem tsm_of_no_match {pat s : Str} (h : isPrefixOfCh pat s = false) :
    trimStartMatches pat s = s := by
  unfold trimStartMatches
  cases hsl : s.length with
  | zero => rfl
  | succ n => simp [stripStartRep, h]

theorem tsm_cancel {pat rest : Str} (hp : pat ≠ []) :
    trimStartMatches pat (pat ++ rest) = trimStartMatches pat rest := by
  have hplen : 1 ≤ pat.length := by
    cases pat with
    | nil => exact absurd rfl hp
    | cons c cs => simp
  unfold trimStartMatches
  cases hfl : (pat ++ rest).length with
  | zero =>
    exfalso
    simp only [List.length_append] at hfl
    omega
  | succ n =>
    have hn : rest.length ≤ n := by
      simp only [List.length_append] at hfl
      omega
    simp only [stripStartRep, hp, isPrefixOfCh_append, ne_eq,
      not_false_eq_true, and_true, if_true, true_and, if_pos]
    rw [List.drop_left]
    exact stripStartRep_fuel n rest.length rest hn (Nat.le_refl _)

theorem tem_of_no_match {pat s : Str}
    (h : isPrefixOfCh pat.reverse s.reverse = false) :
    trimEndMatches pat s = s := by
  unfold trimEndMatches
  rw [tsm_of_no_match h, List.reverse_reverse]

theorem tem_cancel {pat rest : Str} (hp : pat ≠ []) :
    trimEndMatches pat (rest ++ pat) = trimEndMatches pat rest := by
  unfold trimEndMatches
  rw [List.reverse_append, tsm_cancel (by simp [hp])]

theorem trimStartChars_cons_ws {c : Char} {s : Str} (h : isWs c = true) :
    trimStartChars (c :: s) = trimStartChars s := by
  simp [trimStartChars, List.dropWhile_cons, h]

theorem trimStartChars_cons_nws {c : Char} {s : Str} (h : isWs c = false) :
    trimStartChars (c :: s) = c :: s := by
  simp [trimStartChars, List.dropWhile_cons, h]

theorem trimEndChars_concat_ws {c : Char} {s : Str} (h : isWs c = true) :
    trimEndChars (s ++ [c]) = trimEndChars s := by
  simp [trimEndChars, List.reverse_append, List.dropWhile_cons, h]

theorem trimEndChars_concat_nws {c : Char} {s : Str} (h : isWs c = false) :
    trimEndChars (s ++ [c]) = s ++ [c] := by
  simp [trimEndChars, List.reverse_append, List.dropWhile_cons, h]

theorem exists_concat_of_getLast {l : Str} {c : Char}
    (h : l.getLast? = some c) : ∃ u, l = u ++ [c] := by
  induction l with
  | nil => simp at h
  | cons a rest ih =>
    cases rest with
    | nil =>
      simp [List.getLast?] at h
      exact ⟨[], by simp [h]⟩
    | cons b bs =>
      rw [List.getLast?_cons_cons] at h
      obtain ⟨u, hu⟩ := ih h
      exact ⟨a :: u, by simp [hu]⟩

/-! ### Lemmas on the store -/

theorem insertNodes_noFail (d : Nat) :
    ∀ (ns : List GraphNode) (i : Nat) (db : Db) (m : NodeMap),
      insertNodes noFailures d ns i db m =
        .ok (⟨db.nodes ++ nodeRowsFor d db.nextId ns, db.edges,
              db.nextId + ns.length⟩,
             mapOfNodes db.nextId ns m) := by
  intro ns
  induction ns with
  | nil => intro i db m; simp [insertNodes, nodeRowsFor, mapOfNodes]
  | cons n rest ih =>
    intro i db m
    simp only [insertNodes, noFailures]
    rw [ih]
    simp [nodeRowsFor, mapOfNodes, mapInsert, List.append_assoc,
      Nat.add_comm, Nat.add_left_comm, Nat.add_assoc]

theorem insertNodes_ok {fail : FailOracle} {d : Nat} :
    ∀ {ns : List GraphNode} {i : Nat} {db : Db} {m : NodeMap} {db' : Db}
      {m' : NodeMap},
      insertNodes fail d ns i db m = .ok (db', m') →
      db' = ⟨db.nodes ++ nodeRowsFor d db.nextId ns, db.edges,
             db.nextId + ns.length⟩ ∧
      m' = mapOfNodes db.nextId ns m := by
  intro ns
  induction ns with
  | nil =>
    intro i db m db' m' h
    simp only [insertNodes, Except.ok.injEq, Prod.mk.injEq] at h
    obtain ⟨h1, h2⟩ := h
    constructor
    · rw [← h1]; simp [nodeRowsFor]
    · rw [← h2]; rfl
  | cons n rest ih =>
    intro i db m db' m' h
    simp only [insertNodes] at h
    cases hf : fail (.insNode i) with
    | some e => rw [hf] at h; cases h
    | none =>
      rw [hf] at h
      obtain ⟨h1, h2⟩ := ih h
      constructor
      · rw [h1]
        simp [nodeRowsFor, List.append_assoc, Nat.add_comm,
          Nat.add_left_comm, Nat.add_assoc]
      · rw [h2]; rfl

theorem mapOfNodes_lookup (k : Str) :
    ∀ (ns : List GraphNode) (startId : Nat) (m : NodeMap),
      mapLookup (mapOfNodes startId ns m) k =
        match lastIdxOf k ns with
        | some j => some (startId + j)
        | none => mapLookup m k := by
  intro ns
  induction ns with
  | nil => intro startId m; simp [mapOfNodes, lastIdxOf]
  | cons n rest ih =>
    intro startId m
    simp only [mapOfNodes, lastIdxOf, mapInsert]
    rw [ih]
    cases h : lastIdxOf k rest with
    | some j =>
      simp only []
      congr 1
      omega
    | none =>
      simp only [mapLookup]
      by_cases hn : n.name = k <;> simp [hn]

theorem lastIdxOf_eq_none {k : Str} :
    ∀ {ns : List GraphNode},
      lastIdxOf k ns = none ↔ ∀ n ∈ ns, n.name ≠ k := by
  intro ns
  induction ns with
  | nil => simp [lastIdxOf]
  | cons n rest ih =>
    simp only [lastIdxOf]
    cases h : lastIdxOf k rest with
    | some j =>
      simp only [List.mem_cons]
      constructor
      · intro hc; cases hc
      · intro hall
        exfalso
        have hnone : lastIdxOf k rest = none :=
          ih.mpr (fun n' hn' => hall n' (Or.inr hn'))
        rw [h] at hnone; cases hnone
    | none =>
      have hrest : ∀ n' ∈ rest, n'.name ≠ k := ih.mp h
      by_cases hn : n.name = k
      · simp [hn]
      · simp only [hn, if_false, List.mem_cons]
        constructor
        · intro _ n' hn'
          rcases hn' with rfl | hmem
          · exact hn
          · exact hrest n' hmem
        · intro _
          trivial

theorem insertEdges_ok {fail : FailOracle} {d : Nat} {m : NodeMap} :
    ∀ {es : List GraphEdge} {i : Nat} {db db' : Db},
      insertEdges fail d es i m db = .ok db' →
      ∃ rows, resolveEdgeRows d m es = some rows ∧
        db' = ⟨db.nodes, db.edges ++ rows, db.nextId⟩ := by
  intro es
  induction es with
  | nil =>
    intro i db db' h
    simp only [insertEdges, Except.ok.injEq] at h
    exact ⟨[], rfl, by rw [← h]; simp⟩
  | cons e rest ih =>
    intro i db db' h
    simp only [insertEdges] at h
    cases hs : mapLookup m e.source with
    | none => rw [hs] at h; cases h
    | some source_id =>
      rw [hs] at h
      cases ht : mapLookup m e.target with
      | none => rw [ht] at h; cases h
      | some target_id =>
        rw [ht] at h
        cases hf : fail (.insEdge i) with
        | some err => rw [hf] at h; cases h
        | none =>
          rw [hf] at h
          obtain ⟨rows, hres, hdb⟩ := ih h
          refine ⟨⟨d, source_id, target_id, e.relationship, e.properties⟩ ::
            rows, ?_, ?_⟩
          · simp [resolveEdgeRows, hs, ht, hres]
          · rw [hdb]; simp

theorem insertEdges_noFail_of_resolve {d : Nat} {m : NodeMap} :
    ∀ {es : List GraphEdge} {rows : List EdgeRow} (i : Nat) (db : Db),
      resolveEdgeRows d m es = some rows →
      insertEdges noFailures d es i m db =
        .ok ⟨db.nodes, db.edges ++ rows, db.nextId⟩ := by
  intro es
  induction es with
  | nil =>
    intro rows i db h
    simp only [resolveEdgeRows, Option.some.injEq] at h
    simp [insertEdges, ← h]
  | cons e rest ih =>
    intro rows i db h
    simp only [resolveEdgeRows] at h
    cases hs : mapLookup m e.source with
    | none => rw [hs] at h; cases h
    | some source_id =>
      rw [hs] at h
      cases ht : mapLookup m e.target with
      | none => rw [ht] at h; cases h
      | some target_id =>
        rw [ht] at h
        cases hres : resolveEdgeRows d m rest with
        | none => rw [hres] at h; cases h
        | some rows' =>
          rw [hres] at h
          simp only [Option.some.injEq] at h
          simp only [insertEdges, hs, ht, noFailures]
          rw [ih (i + 1) _ hres, ← h]
          simp

theorem insertEdges_dangling {d : Nat} {m : NodeMap} :
    ∀ {es : List GraphEdge} (i : Nat) (db : Db),
      (∃ e ∈ es, mapLookup m e.source = none ∨ mapLookup m e.target = none) →
      ∃ msg nm, insertEdges noFailures d es i m db = .error msg ∧
        mapLookup m nm = none ∧
        (∃ e ∈ es, e.source = nm ∨ e.target = nm) ∧
        (msg = "Source node ".data ++ nm ++ " not found".data ∨
         msg = "Target node ".data ++ nm ++ " not found".data) := by
  intro es
  induction es with
  | nil => intro i db h; simp at h
  | cons e rest ih =>
    intro i db h
    cases hs : mapLookup m e.source with
    | none =>
      refine ⟨"Source node ".data ++ e.source ++ " not found".data,
        e.source, ?_, hs, ⟨e, List.mem_cons_self e rest, Or.inl rfl⟩,
        Or.inl rfl⟩
      simp [insertEdges, hs]
    | some source_id =>
      cases ht : mapLookup m e.target with
      | none =>
        refine ⟨"Target node ".data ++ e.target ++ " not found".data,
          e.target, ?_, ht, ⟨e, List.mem_cons_self e rest, Or.inr rfl⟩,
          Or.inr rfl⟩
        simp [insertEdges, hs, ht]
      | some target_id =>
        have hrest : ∃ e' ∈ rest,
            mapLookup m e'.source = none ∨ mapLookup m e'.target = none := by
          obtain ⟨e', he', hbad⟩ := h
          rcases List.mem_cons.mp he' with rfl | hmem
          · rcases hbad with hbad | hbad
            · rw [hs] at hbad; cases hbad
            · rw [ht] at hbad; cases hbad
          · exact ⟨e', hmem, hbad⟩
        obtain ⟨msg, nm, herr, hnone, ⟨e', he', hee⟩, hmsg⟩ :=
          ih (i + 1) ⟨db.nodes,
            db.edges ++ [⟨d, source_id, target_id, e.relationship,
              e.properties⟩], db.nextId⟩ hrest
        refine ⟨msg, nm, ?_, hnone,
          ⟨e', List.mem_cons_of_mem e he', hee⟩, hmsg⟩
        simp only [insertEdges, hs, ht, noFailures]
        exact herr

theorem visibleAfterStore_of_error {fail : FailOracle} {d : Nat}
    {g : GraphData} {db : Db} {e : Str}
    (h : store_graph_data fail d g db = .error e) :
    visibleAfterStore fail d g db = db := by
  unfold visibleAfterStore
  rw [h]

theorem visibleAfterStore_of_ok {fail : FailOracle} {d : Nat}
    {g : GraphData} {db : Db} {db2 : Db}
    (h : store_graph_data fail d g db = .ok db2) :
    visibleAfterStore fail d g db = db2 := by
  unfold visibleAfterStore
  rw [h]

theorem store_ok_parts {fail : FailOracle} {d : Nat} {g : GraphData}
    {db db2 : Db} (h : store_graph_data fail d g db = .ok db2) :
    ∃ rows,
      resolveEdgeRows d (mapOfNodes db.nextId g.nodes []) g.edges =
        some rows ∧
      db2 = ⟨removeNodesFor d db.nodes ++ nodeRowsFor d db.nextId g.nodes,
             removeEdgesFor d db.edges ++ rows,
             db.nextId + g.nodes.length⟩ := by
  unfold store_graph_data at h
  split at h
  · cases h
  · split at h
    · cases h
    · split at h
      · cases h
      · rename_i dbn m hn
        obtain ⟨hdbn, hm⟩ := insertNodes_ok hn
        split at h
        · cases h
        · rename_i dbe he
          obtain ⟨rows, hres, hdbe⟩ := insertEdges_ok he
          split at h
          · cases h
          · simp only [Except.ok.injEq] at h
            refine ⟨rows, ?_, ?_⟩
            · exact hm ▸ hres
            · rw [← h, hdbe, hdbn]
              rfl

theorem store_noFail_of_ok {fail : FailOracle} {d : Nat} {g : GraphData}
    {db db2 : Db} (h : store_graph_data fail d g db = .ok db2) :
    store_graph_data noFailures d g db = .ok db2 := by
  obtain ⟨rows, hres, hdb2⟩ := store_ok_parts h
  simp only [store_graph_data, noFailures]
  rw [insertNodes_noFail]
  simp only []
  rw [show (deleteDoc d db).nextId = db.nextId from rfl]
  rw [insertEdges_noFail_of_resolve 0 _ hres]
  simp only []
  rw [hdb2]
  rfl

theorem selectNodesFor_append (d : Nat) (l1 l2 : List NodeRow) :
    selectNodesFor d (l1 ++ l2) =
      selectNodesFor d l1 ++ selectNodesFor d l2 := by
  induction l1 with
  | nil => simp [selectNodesFor]
  | cons r rest ih =>
    simp only [List.cons_append, selectNodesFor]
    by_cases hr : r.document_id = d <;> simp [hr, ih]

theorem selectEdgesFor_append (d : Nat) (l1 l2 : List EdgeRow) :
    selectEdgesFor d (l1 ++ l2) =
      selectEdgesFor d l1 ++ selectEdgesFor d l2 := by
  induction l1 with
  | nil => simp [selectEdgesFor]
  | cons r rest ih =>
    simp only [List.cons_append, selectEdgesFor]
    by_cases hr : r.document_id = d <;> simp [hr, ih]

theorem selectNodesFor_removeNodesFor_self (d : Nat) (l : List NodeRow) :
    selectNodesFor d (removeNodesFor d l) = [] := by
  induction l with
  | nil => rfl
  | cons r rest ih =>
    simp only [removeNodesFor]
    by_cases hr : r.document_id = d <;> simp [hr, selectNodesFor, ih]

theorem selectEdgesFor_removeEdgesFor_self (d : Nat) (l : List EdgeRow) :
    selectEdgesFor d (removeEdgesFor d l) = [] := by
  induction l with
  | nil => rfl
  | cons r rest ih =>
    simp only [removeEdgesFor]
    by_cases hr : r.document_id = d <;> simp [hr, selectEdgesFor, ih]

theorem selectNodesFor_removeNodesFor_other {d d' : Nat} (hne : d' ≠ d)
    (l : List NodeRow) :
    selectNodesFor d' (removeNodesFor d l) = selectNodesFor d' l := by
  induction l with
  | nil => rfl
  | cons r rest ih =>
    simp only [removeNodesFor]
    by_cases hr : r.document_id = d
    · have hne' : ¬ d = d' := fun hc => hne hc.symm
      simp [hr, selectNodesFor, hne', ih]
    · simp [hr, selectNodesFor, ih]

theorem selectEdgesFor_removeEdgesFor_other {d d' : Nat} (hne : d' ≠ d)
    (l : List EdgeRow) :
    selectEdgesFor d' (removeEdgesFor d l) = selectEdgesFor d' l := by
  induction l with
  | nil => rfl
  | cons r rest ih =>
    simp only [removeEdgesFor]
    by_cases hr : r.document_id = d
    · have hne' : ¬ d = d' := fun hc => hne hc.symm
      simp [hr, selectEdgesFor, hne', ih]
    · simp [hr, selectEdgesFor, ih]

theorem selectNodesFor_nodeRowsFor_self (d : Nat) :
    ∀ (ns : List GraphNode) (startId : Nat),
      selectNodesFor d (nodeRowsFor d startId ns) =
        nodeRowsFor d startId ns := by
  intro ns
  induction ns with
  | nil => intro startId; rfl
  | cons n rest ih =>
    intro startId
    simp [nodeRowsFor, selectNodesFor, ih]

theorem selectNodesFor_nodeRowsFor_other {d d' : Nat} (hne : d' ≠ d) :
    ∀ (ns : List GraphNode) (startId : Nat),
      selectNodesFor d' (nodeRowsFor d startId ns) = [] := by
  intro ns
  induction ns with
  | nil => intro startId; rfl
  | cons n rest ih =>
    intro startId
    have hne' : ¬ d = d' := fun hc => hne hc.symm
    simp [nodeRowsFor, selectNodesFor, hne', ih]

theorem resolveEdgeRows_doc {d : Nat} {m : NodeMap} :
    ∀ {es : List GraphEdge} {rows : List EdgeRow},
      resolveEdgeRows d m es = some rows →
      ∀ r ∈ rows, r.document_id = d := by
  intro es
  induction es with
  | nil =>
    intro rows h
    simp only [resolveEdgeRows, Option.some.injEq] at h
    rw [← h]
    intro r hr
    cases hr
  | cons e rest ih =>
    intro rows h
    simp only [resolveEdgeRows] at h
    cases hs : mapLookup m e.source with
    | none => rw [hs] at h; cases h
    | some source_id =>
      rw [hs] at h
      cases ht : mapLookup m e.target with
      | none => rw [ht] at h; cases h
      | some target_id =>
        rw [ht] at h
        cases hres : resolveEdgeRows d m rest with
        | none => rw [hres] at h; cases h
        | some rows' =>
          rw [hres] at h
          simp only [Option.some.injEq] at h
          rw [← h]
          intro r hr
          rcases List.mem_cons.mp hr with rfl | hmem
          · rfl
          · exact ih hres r hmem

theorem selectEdgesFor_all_self {d : Nat} {l : List EdgeRow}
    (h : ∀ r ∈ l, r.document_id = d) : selectEdgesFor d l = l := by
  induction l with
  | nil => rfl
  | cons r rest ih =>
    have hr := h r (List.mem_cons_self r rest)
    simp only [selectEdgesFor, hr, if_pos]
    rw [ih (fun r' hr' => h r' (List.mem_cons_of_mem r hr'))]

theorem selectEdgesFor_all_other {d d' : Nat} {l : List EdgeRow}
    (hne : d' ≠ d) (h : ∀ r ∈ l, r.document_id = d) :
    selectEdgesFor d' l = [] := by
  induction l with
  | nil => rfl
  | cons r rest ih =>
    have hr := h r (List.mem_cons_self r rest)
    have : ¬ r.document_id = d' := by rw [hr]; exact fun hc => hne hc.symm
    simp only [selectEdgesFor, this, if_neg, not_false_eq_true]
    exact ih (fun r' hr' => h r' (List.mem_cons_of_mem r hr'))

theorem nodeRowsFor_length (d : Nat) :
    ∀ (ns : List GraphNode) (startId : Nat),
      (nodeRowsFor d startId ns).length = ns.length := by
  intro ns
  induction ns with
  | nil => intro startId; rfl
  | cons n rest ih =>
    intro startId
    simp [nodeRowsFor, ih]

theorem nodeRowsFor_get (d : Nat) :
    ∀ (ns : List GraphNode) (startId i : Nat),
      (nodeRowsFor d startId ns).get? i =
        Option.map
          (fun n => ⟨startId + i, d, n.label, n.name, n.properties⟩)
          (ns.get? i) := by
  intro ns
  induction ns with
  | nil => intro startId i; simp [nodeRowsFor]
  | cons n rest ih =>
    intro startId i
    cases i with
    | zero => simp [nodeRowsFor]
    | succ i' =>
      simp only [nodeRowsFor, List.get?_cons_succ]
      rw [ih (startId + 1) i']
      have harith : startId + 1 + i' = startId + (i' + 1) := by omega
      rw [harith]

theorem isPrefixOfCh_false_of_heads {pat s : Str} {p c : Char}
    (hp : pat.head? = some p) (hs : s.head? = some c) (hne : p ≠ c) :
    isPrefixOfCh pat s = false := by
  cases pat with
  | nil => cases hp
  | cons a as =>
    cases s with
    | nil => cases hs
    | cons b bs =>
      rw [List.head?_cons, Option.some.injEq] at hp hs
      subst hp
      subst hs
      exact isPrefixOfCh_ne_head hne

theorem tsm_of_heads {pat s : Str} {p c : Char}
    (hp : pat.head? = some p) (hs : s.head? = some c) (hne : p ≠ c) :
    trimStartMatches pat s = s :=
  tsm_of_no_match (isPrefixOfCh_false_of_heads hp hs hne)

theorem tem_of_lasts {pat s : Str} {p c : Char}
    (hp : pat.getLast? = some p) (hs : s.getLast? = some c) (hne : p ≠ c) :
    trimEndMatches pat s = s := by
  apply tem_of_no_match
  apply isPrefixOfCh_false_of_heads (p := p) (c := c) _ _ hne
  · rw [List.head?_reverse]
    exact hp
  · rw [List.head?_reverse]
    exact hs

theorem trimStartChars_eq_self_of_head {s : Str} {c : Char}
    (h : s.head? = some c) (hc : isWs c = false) :
    trimStartChars s = s := by
  cases s with
  | nil => cases h
  | cons a rest =>
    rw [List.head?_cons, Option.some.injEq] at h
    subst h
    exact trimStartChars_cons_nws hc

theorem trimEndChars_eq_self_of_getLast {s : Str} {c : Char}
    (h : s.getLast? = some c) (hc : isWs c = false) :
    trimEndChars s = s := by
  obtain ⟨u, rfl⟩ := exists_concat_of_getLast h
  exact trimEndChars_concat_nws hc

theorem trimChars_eq_self_of_ends {s : Str} {c b : Char}
    (hh : s.head? = some c) (hc : isWs c = false)
    (hl : s.getLast? = some b) (hb : isWs b = false) :
    trimChars s = s := by
  unfold trimChars
  rw [trimStartChars_eq_self_of_head hh hc,
    trimEndChars_eq_self_of_getLast hl hb]

/-! ### Claim theorems -/

/-- Claim C5: fence stripping is lossless for well-formed payloads — for a
JSON object payload `j` (first character a left brace, last character a
right brace), sanitizing the fence-wrapped model output consisting of a
json-tagged opening fence, a newline, `j`, a newline, and a closing fence
returns exactly `j`, so any parser gives the same result on the sanitized
wrapped output as on `j` parsed directly. -/
theorem sanitize_fence_lossless (j : Str)
    (parse : Str → Except Str GraphData)
    (hh : j.head? = some (Char.ofNat 123))
    (hl : j.getLast? = some (Char.ofNat 125)) :
    sanitizeResponse ("```json\n".data ++ j ++ "\n```".data) = j ∧
    parse (sanitizeResponse ("```json\n".data ++ j ++ "\n```".data)) =
      parse j := by
  obtain ⟨t, rfl⟩ : ∃ t, j = Char.ofNat 123 :: t := by
    cases j with
    | nil => cases hh
    | cons a t =>
      rw [List.head?_cons, Option.some.injEq] at hh
      exact ⟨t, by rw [hh]⟩
  have hmain : sanitizeResponse
      ("```json\n".data ++ (Char.ofNat 123 :: t) ++ "\n```".data) =
      Char.ofNat 123 :: t := by
    have e1 : trimChars
        ("```json\n".data ++ (Char.ofNat 123 :: t) ++ "\n```".data) =
        "```json\n".data ++ (Char.ofNat 123 :: t) ++ "\n```".data := by
      apply trimChars_eq_self_of_ends (c := Char.ofNat 96) (b := Char.ofNat 96)
      · rw [show ("```json\n".data : Str) =
          Char.ofNat 96 :: "``json\n".data from by decide]
        rw [List.cons_append, List.cons_append, List.head?_cons]
      · decide
      · rw [show "```json\n".data ++ (Char.ofNat 123 :: t) ++ "\n```".data =
          ("```json\n".data ++ (Char.ofNat 123 :: t) ++ "\n``".data) ++
            [Char.ofNat 96] from by
          rw [show ("\n```".data : Str) =
            "\n``".data ++ [Char.ofNat 96] from by decide]
          simp [List.append_assoc]]
        rw [List.getLast?_concat]
      · decide
    have e2 : trimStartMatches fenceJson
        ("```json\n".data ++ (Char.ofNat 123 :: t) ++ "\n```".data) =
        '\n' :: ((Char.ofNat 123 :: t) ++ "\n```".data) := by
      have hS : "```json\n".data ++ (Char.ofNat 123 :: t) ++ "\n```".data =
          fenceJson ++ ('\n' :: ((Char.ofNat 123 :: t) ++ "\n```".data)) := by
        rw [show ("```json\n".data : Str) = fenceJson ++ ['\n'] from by decide]
        simp [List.append_assoc]
      rw [hS, tsm_cancel (by decide)]
      exact tsm_of_heads (p := Char.ofNat 96) (c := '\n') (by decide)
        List.head?_cons (by decide)
    have e3 : trimStartMatches fenceBare
        ('\n' :: ((Char.ofNat 123 :: t) ++ "\n```".data)) =
        '\n' :: ((Char.ofNat 123 :: t) ++ "\n```".data) :=
      tsm_of_heads (p := Char.ofNat 96) (c := '\n') (by decide)
        List.head?_cons (by decide)
    have e4 : trimEndMatches fenceBare
        ('\n' :: ((Char.ofNat 123 :: t) ++ "\n```".data)) =
        '\n' :: ((Char.ofNat 123 :: t) ++ ['\n']) := by
      have hR : '\n' :: ((Char.ofNat 123 :: t) ++ "\n```".data) =
          ('\n' :: ((Char.ofNat 123 :: t) ++ ['\n'])) ++ fenceBare := by
        rw [show ("\n```".data : Str) = ['\n'] ++ fenceBare from by decide]
        simp [List.append_assoc]
      rw [hR, tem_cancel (by decide)]
      apply tem_of_lasts (p := Char.ofNat 96) (c := '\n') (by decide) _
        (by decide)
      rw [show '\n' :: ((Char.ofNat 123 :: t) ++ ['\n']) =
        ('\n' :: (Char.ofNat 123 :: t)) ++ ['\n'] from by simp]
      exact List.getLast?_concat _
    have e5 : trimChars ('\n' :: ((Char.ofNat 123 :: t) ++ ['\n'])) =
        Char.ofNat 123 :: t := by
      unfold trimChars
      rw [trimStartChars_cons_ws (by decide), List.cons_append,
        trimStartChars_cons_nws (by decide), ← List.cons_append,
        trimEndChars_concat_ws (by decide),
        trimEndChars_eq_self_of_getLast hl (by decide)]
    unfold sanitizeResponse
    rw [e1, e2, e3, e4, e5]
  exact ⟨hmain, by rw [hmain]⟩

/-- Claim C1: for every document id, graph, database state, and pattern of
statement failures, the table state visible after `store_graph_data` is
either exactly the prior state (any failing step — begin, delete, a node
insert, an edge-endpoint resolution, an edge insert, or commit — aborts the
transaction, preserving every prior row) or exactly the complete new state
of the fully successful replacement run; never a mix of the two. -/
theorem store_replace_atomic (fail : FailOracle) (d : Nat) (g : GraphData)
    (db : Db) :
    visibleAfterStore fail d g db = db ∨
    store_graph_data noFailures d g db =
      .ok (visibleAfterStore fail d g db) := by
  cases hs : store_graph_data fail d g db with
  | error e => exact Or.inl (visibleAfterStore_of_error hs)
  | ok db2 =>
    right
    rw [visibleAfterStore_of_ok hs]
    exact store_noFail_of_ok hs

/-- Claim C2: a graph containing an edge whose source or target name is
absent from the node names makes `store_graph_data` fail with the
`"... node ... not found"` error naming a missing node, and leaves the
visible table state exactly as it was — no node or edge row of the call is
persisted. -/
theorem store_rejects_dangling (d : Nat) (g : GraphData) (db : Db)
    (h : ∃ e ∈ g.edges,
      (∀ n ∈ g.nodes, n.name ≠ e.source) ∨
      (∀ n ∈ g.nodes, n.name ≠ e.target)) :
    ∃ msg nm,
      store_graph_data noFailures d g db = .error msg ∧
      visibleAfterStore noFailures d g db = db ∧
      (∀ n ∈ g.nodes, n.name ≠ nm) ∧
      (∃ e ∈ g.edges, e.source = nm ∨ e.target = nm) ∧
      (msg = "Source node ".data ++ nm ++ " not found".data ∨
       msg = "Target node ".data ++ nm ++ " not found".data) := by
  have hlk : ∀ k, (∀ n ∈ g.nodes, n.name ≠ k) →
      mapLookup (mapOfNodes db.nextId g.nodes []) k = none := by
    intro k hk
    rw [mapOfNodes_lookup, lastIdxOf_eq_none.mpr hk]
    rfl
  have hlk2 : ∀ k, mapLookup (mapOfNodes db.nextId g.nodes []) k = none →
      ∀ n ∈ g.nodes, n.name ≠ k := by
    intro k hk
    rw [mapOfNodes_lookup] at hk
    cases hrec : lastIdxOf k g.nodes with
    | some j => rw [hrec] at hk; cases hk
    | none => exact lastIdxOf_eq_none.mp hrec
  have hdang : ∃ e ∈ g.edges,
      mapLookup (mapOfNodes db.nextId g.nodes []) e.source = none ∨
      mapLookup (mapOfNodes db.nextId g.nodes []) e.target = none := by
    obtain ⟨e, he, hcase⟩ := h
    exact ⟨e, he, hcase.imp (hlk _) (hlk _)⟩
  obtain ⟨msg, nm, herr, hnone, hmem, hmsg⟩ :=
    insertEdges_dangling (d := d) 0
      (⟨removeNodesFor d db.nodes ++ nodeRowsFor d db.nextId g.nodes,
        removeEdgesFor d db.edges, db.nextId + g.nodes.length⟩ : Db) hdang
  have hstore : store_graph_data noFailures d g db = .error msg := by
    simp only [store_graph_data, noFailures]
    rw [insertNodes_noFail]
    simp only []
    rw [show (deleteDoc d db).nextId = db.nextId from rfl,
      show (deleteDoc d db).nodes = removeNodesFor d db.nodes from rfl,
      show (deleteDoc d db).edges = removeEdgesFor d db.edges from rfl]
    rw [herr]
  exact ⟨msg, nm, hstore, visibleAfterStore_of_error hstore,
    hlk2 nm hnone, hmem, hmsg⟩

/-- Claim C3: `analyze_document` returns `Ok g` only when the document was
fetched, its analyzable text selected, extraction produced exactly `g` from
that text, and storing `g` for the document succeeded — the returned graph
is the very value extraction produced, and a graph whose persistence failed
is never returned. -/
theorem analyze_ok_extracted_and_stored (env : AnalyzeEnv) (d : Nat)
    (db db2 : Db) (g : GraphData)
    (h : analyze_document env d db = (.ok g, db2)) :
    ∃ doc content,
      env.fetchResult = .ok (some doc) ∧
      analyzableText doc = some content ∧
      extract env content = .ok g ∧
      store_graph_data env.storeFail d g db = .ok db2 := by
  unfold analyze_document at h
  split at h
  · simp at h
  · simp at h
  · rename_i doc hf
    split at h
    · simp at h
    · rename_i content hc
      unfold runPipeline at h
      split at h
      · simp at h
      · rename_i g' he
        split at h
        · simp at h
        · rename_i db' hs
          simp only [Prod.mk.injEq, Except.ok.injEq] at h
          obtain ⟨rfl, rfl⟩ := h
          exact ⟨doc, content, hf, hc, he, hs⟩

/-- Claim C4: with no model credential configured, extraction never fails
and returns the same fixed synthetic graph for every input text — two nodes
labelled Person and Company joined by one WORKS_FOR edge, independent of
the text. -/
theorem extract_fallback_fixed (env : AnalyzeEnv) (c1 c2 : Str)
    (h : env.apiKey = none) :
    extract env c1 = .ok (mock_llm_response c2) ∧
    mock_llm_response c1 = mock_llm_response c2 ∧
    (mock_llm_response c1).nodes.map GraphNode.label =
      ["Person".data, "Company".data] ∧
    (mock_llm_response c1).edges.map GraphEdge.relationship =
      ["WORKS_FOR".data] := by
  refine ⟨?_, ?_, ?_, ?_⟩
  · simp only [extract, h]
    rfl
  · rfl
  · rfl
  · rfl

/-- Claim C6: `analyze_document` fails with the not-found error when no
document matches the id, fails with the no-content error when the document
has neither OCR text nor raw content, and otherwise runs the
extract-and-store pipeline on the OCR text whenever it is present, falling
back to the raw content only when the OCR text is absent. -/
theorem analyze_text_selection (env : AnalyzeEnv) (d : Nat) (db : Db) :
    (env.fetchResult = .ok none →
      analyze_document env d db = (.error "Document not found".data, db)) ∧
    (∀ doc, env.fetchResult = .ok (some doc) → doc.ocr_text = none →
      doc.content = none →
      analyze_document env d db =
        (.error "No content to analyze".data, db)) ∧
    (∀ doc t, env.fetchResult = .ok (some doc) → doc.ocr_text = some t →
      analyze_document env d db = runPipeline env d db t) ∧
    (∀ doc c, env.fetchResult = .ok (some doc) → doc.ocr_text = none →
      doc.content = some c →
      analyze_document env d db = runPipeline env d db c) := by
  refine ⟨?_, ?_, ?_, ?_⟩
  · intro hf
    simp [analyze_document, hf]
  · intro doc hf ho hc
    simp [analyze_document, hf, analyzableText, ho, hc]
  · intro doc t hf ho
    simp [analyze_document, hf, analyzableText, ho]
  · intro doc c hf ho hc
    simp [analyze_document, hf, analyzableText, ho, hc]

/-- Claim C7: duplicate node names never make the node-insertion phase
fail — it succeeds for every graph, inserting one row per node — and the
name → id map binds each name to the id generated for the last node in the
list carrying that name (the later insert silently overwrites the earlier
binding). Edge resolution in `insertEdges` reads exactly this map, so every
edge referencing a duplicated name resolves to the last-inserted node's
id. -/
theorem node_map_last_write_wins (d : Nat) (g : GraphData) (db : Db) :
    insertNodes noFailures d g.nodes 0 (deleteDoc d db) [] =
      .ok (⟨removeNodesFor d db.nodes ++ nodeRowsFor d db.nextId g.nodes,
            removeEdgesFor d db.edges, db.nextId + g.nodes.length⟩,
           mapOfNodes db.nextId g.nodes []) ∧
    ∀ nm, mapLookup (mapOfNodes db.nextId g.nodes []) nm =
      Option.map (fun j => db.nextId + j) (lastIdxOf nm g.nodes) := by
  constructor
  · rw [insertNodes_noFail]
    rfl
  · intro nm
    rw [mapOfNodes_lookup]
    cases h : lastIdxOf nm g.nodes with
    | some j => simp
    | none => simp [mapLookup]

/-- Claim C8: the document excerpt embedded in the model prompt is exactly
the first `min 4000 (length text)` characters of the input text; prompt
construction is total, so longer inputs are silently truncated to that
prefix rather than reported as an error. -/
theorem prompt_excerpt_bounded (content : Str) :
    buildPrompt content =
      promptInstr ++ content.take (min 4000 content.length) ∧
    (buildPrompt content).length =
      promptInstr.length + min 4000 content.length := by
  constructor
  · unfold buildPrompt
    congr 1
    rw [List.take_eq_take]
    omega
  · simp [buildPrompt, List.length_take]

/-- Claim C9: a successful `store_graph_data` call leaves, for the stored
document, exactly the node and edge rows implied by the graph — every
previously persisted row for that document is gone — while the rows of
every other document are untouched. Replacing twice in sequence is this
statement applied at the second call's starting state: only the second
call's rows remain for the document. -/
theorem store_replace_exact (fail : FailOracle) (d : Nat) (g : GraphData)
    (db db2 : Db) (h : store_graph_data fail d g db = .ok db2) :
    ∃ erows,
      resolveEdgeRows d (mapOfNodes db.nextId g.nodes []) g.edges =
        some erows ∧
      db2.nodes =
        removeNodesFor d db.nodes ++ nodeRowsFor d db.nextId g.nodes ∧
      db2.edges = removeEdgesFor d db.edges ++ erows ∧
      db2.nextId = db.nextId + g.nodes.length ∧
      selectNodesFor d db2.nodes = nodeRowsFor d db.nextId g.nodes ∧
      selectEdgesFor d db2.edges = erows ∧
      ∀ d', d' ≠ d →
        selectNodesFor d' db2.nodes = selectNodesFor d' db.nodes ∧
        selectEdgesFor d' db2.edges = selectEdgesFor d' db.edges := by
  obtain ⟨erows, hres, hdb2⟩ := store_ok_parts h
  have hdocs := resolveEdgeRows_doc hres
  refine ⟨erows, hres, ?_, ?_, ?_, ?_, ?_, ?_⟩
  · rw [hdb2]
  · rw [hdb2]
  · rw [hdb2]
  · simp only [hdb2]
    rw [selectNodesFor_append, selectNodesFor_removeNodesFor_self,
      selectNodesFor_nodeRowsFor_self]
    simp
  · simp only [hdb2]
    rw [selectEdgesFor_append, selectEdgesFor_removeEdgesFor_self,
      selectEdgesFor_all_self hdocs]
    simp
  · intro d' hne
    constructor
    · simp only [hdb2]
      rw [selectNodesFor_append, selectNodesFor_removeNodesFor_other hne,
        selectNodesFor_nodeRowsFor_other hne]
      simp
    · simp only [hdb2]
      rw [selectEdgesFor_append, selectEdgesFor_removeEdgesFor_other hne,
        selectEdgesFor_all_other hne hdocs]
      simp

/-- Claim C10: a successful `store_graph_data` call inserts exactly one
node row per element of the input node sequence — the row at position `i`
carries generated id `nextId + i` and node `i`'s label, name, and
properties — so duplicate-named nodes are persisted as separate rows with
distinct ids, and only the transient name → id map collapses. -/
theorem store_one_row_per_node (fail : FailOracle) (d : Nat) (g : GraphData)
    (db db2 : Db) (h : store_graph_data fail d g db = .ok db2) :
    selectNodesFor d db2.nodes = nodeRowsFor d db.nextId g.nodes ∧
    (nodeRowsFor d db.nextId g.nodes).length = g.nodes.length ∧
    ∀ i, (nodeRowsFor d db.nextId g.nodes).get? i =
      Option.map
        (fun n => ⟨db.nextId + i, d, n.label, n.name, n.properties⟩)
        (g.nodes.get? i) := by
  obtain ⟨erows, hres, hdb2⟩ := store_ok_parts h
  refine ⟨?_, nodeRowsFor_length d g.nodes db.nextId,
    fun i => nodeRowsFor_get d g.nodes db.nextId i⟩
  simp only [hdb2]
  rw [selectNodesFor_append, selectNodesFor_removeNodesFor_self,
    selectNodesFor_nodeRowsFor_self]
  simp

/-- Witness for claim C2: the dangling edge of `gDangling` makes the store
fail with the error naming `X` and leaves the empty database untouched. -/
theorem store_rejects_dangling_witness :
    ∃ msg nm,
      store_graph_data noFailures 7 gDangling db0 = .error msg ∧
      visibleAfterStore noFailures 7 gDangling db0 = db0 ∧
      (∀ n ∈ gDangling.nodes, n.name ≠ nm) ∧
      (∃ e ∈ gDangling.edges, e.source = nm ∨ e.target = nm) ∧
      (msg = "Source node ".data ++ nm ++ " not found".data ∨
       msg = "Target node ".data ++ nm ++ " not found".data) :=
  store_rejects_dangling 7 gDangling db0 (by decide)

/-- Witness for claim C3: the mock-path analysis of document 3 returns the
extracted graph and its stored state. -/
theorem analyze_ok_extracted_and_stored_witness :
    ∃ doc content,
      envMock.fetchResult = .ok (some doc) ∧
      analyzableText doc = some content ∧
      extract envMock content = .ok (mock_llm_response []) ∧
      store_graph_data envMock.storeFail 3 (mock_llm_response []) db0 =
        .ok dbMockStored :=
  analyze_ok_extracted_and_stored envMock 3 db0 dbMockStored
    (mock_llm_response []) (by decide)

/-- Witness for claim C4: with `envMock` (no API key), two different input
texts extract to the same fixed graph. -/
theorem extract_fallback_fixed_witness :
    extract envMock "abc".data = .ok (mock_llm_response "xyz".data) ∧
    mock_llm_response "abc".data = mock_llm_response "xyz".data ∧
    (mock_llm_response "abc".data).nodes.map GraphNode.label =
      ["Person".data, "Company".data] ∧
    (mock_llm_response "abc".data).edges.map GraphEdge.relationship =
      ["WORKS_FOR".data] :=
  extract_fallback_fixed envMock "abc".data "xyz".data rfl

/-- Witness for claim C5: sanitizing the fence-wrapped empty-graph payload
returns the payload itself. -/
theorem sanitize_fence_lossless_witness :
    sanitizeResponse ("```json\n".data ++ jEx ++ "\n```".data) = jEx ∧
    (fun s => (.error s : Except Str GraphData))
        (sanitizeResponse ("```json\n".data ++ jEx ++ "\n```".data)) =
      (fun s => (.error s : Except Str GraphData)) jEx :=
  sanitize_fence_lossless jEx (fun s => .error s) (by decide) (by decide)

/-- Witness for claim C6: the four routing branches of `analyze_document`
at concrete environments. -/
theorem analyze_text_selection_witness :
    analyze_document envNoDoc 0 db0 =
      (.error "Document not found".data, db0) ∧
    analyze_document envNoContent 0 db0 =
      (.error "No content to analyze".data, db0) ∧
    analyze_document envMock 0 db0 =
      runPipeline envMock 0 db0 "Jane works at Acme.".data ∧
    analyze_document envRawOnly 0 db0 =
      runPipeline envRawOnly 0 db0 "raw body".data := by
  refine ⟨?_, ?_, ?_, ?_⟩
  · exact (analyze_text_selection envNoDoc 0 db0).1 rfl
  · exact (analyze_text_selection envNoContent 0 db0).2.1
      ⟨none, none⟩ rfl rfl rfl
  · exact (analyze_text_selection envMock 0 db0).2.2.1
      ⟨some "Jane works at Acme.".data, none⟩
      "Jane works at Acme.".data rfl rfl
  · exact (analyze_text_selection envRawOnly 0 db0).2.2.2
      ⟨none, some "raw body".data⟩ "raw body".data rfl rfl rfl

/-- Witness for claim C9: replacing document 7's graph with `gDup` in an
empty database yields exactly the implied rows. -/
theorem store_replace_exact_witness :
    ∃ erows,
      resolveEdgeRows 7 (mapOfNodes db0.nextId gDup.nodes []) gDup.edges =
        some erows ∧
      dbDupStored.nodes =
        removeNodesFor 7 db0.nodes ++ nodeRowsFor 7 db0.nextId gDup.nodes ∧
      dbDupStored.edges = removeEdgesFor 7 db0.edges ++ erows ∧
      dbDupStored.nextId = db0.nextId + gDup.nodes.length ∧
      selectNodesFor 7 dbDupStored.nodes =
        nodeRowsFor 7 db0.nextId gDup.nodes ∧
      selectEdgesFor 7 dbDupStored.edges = erows ∧
      ∀ d', d' ≠ 7 →
        selectNodesFor d' dbDupStored.nodes = selectNodesFor d' db0.nodes ∧
        selectEdgesFor d' dbDupStored.edges = selectEdgesFor d' db0.edges :=
  store_replace_exact noFailures 7 gDup db0 dbDupStored (by decide)

/-- Witness for claim C10: storing `gDup` (two nodes named `A`) for
document 7 persists one row per input node, ids 0, 1, 2. -/
theorem store_one_row_per_node_witness :
    selectNodesFor 7 dbDupStored.nodes =
      nodeRowsFor 7 db0.nextId gDup.nodes ∧
    (nodeRowsFor 7 db0.nextId gDup.nodes).length = gDup.nodes.length ∧
    ∀ i, (nodeRowsFor 7 db0.nextId gDup.nodes).get? i =
      Option.map
        (fun n => ⟨db0.nextId + i, 7, n.label, n.name, n.properties⟩)
        (gDup.nodes.get? i) :=
  store_one_row_per_node noFailures 7 gDup db0 dbDupStored (by decide)
